import Mathlib

/-!
Verification development for the MMS-Player Gloss Inflection and Timeline
Composition Engine.  The definitions below are a shallow embedding of the
Python source (src/player/mms_parser.py, src/player/targets.py,
src/player/ArmatureUtils.py, src/player/extract.py, src/player/merge.py):
numeric cell values and keyframe coordinates are modelled as rationals,
Python `None` as `Option`, and raisable Python exceptions as `Except String`.
-/

set_option maxHeartbeats 1000000

/-- Python `int()` truncation toward zero of a rational. -/
def pyInt (q : ℚ) : ℤ := if 0 ≤ q then ⌊q⌋ else ⌈q⌉

/-- Python list indexing semantics: a negative index wraps once from the end;
an index out of range is an IndexError, modelled as `none`. -/
def pyGet {α : Type} (l : List α) (i : ℤ) : Option α :=
  if 0 ≤ i then l.get? i.toNat
  else if 0 ≤ i + l.length then l.get? (i + l.length).toNat
  else none

/-! ## Timing table model (src/player/mms_parser.py) -/

/-- Embeds `MMSLine.timing`: `(math.ceil(framestart * 60), math.floor(frameend * 60))`,
the start/end cells holding seconds at the fixed 60 fps assumption. -/
def MMSLine.timing (framestart frameend : ℚ) : ℤ × ℤ :=
  (⌈framestart * 60⌉, ⌊frameend * 60⌋)

/-- Embeds `MMSLine.transition`: `math.ceil(float(transition) * 60)`. -/
def MMSLine.transition (t : ℚ) : ℤ := ⌈t * 60⌉

/-- A duration cell of the table: either a percent-suffixed value `NN%`
or a plain numeric value (seconds). -/
inductive DurationCell : Type
  | pct (n : ℚ)
  | plain (v : ℚ)
deriving DecidableEq, Repr

/-- Embeds `MMSLine.duration`: a percent cell is returned as
`(float(NN) / 100, True)`; a plain cell is returned as
`(math.ceil(float(cell) * 60), False)`. -/
def MMSLine.duration : DurationCell → ℚ × Bool
  | .pct n => (n / 100, true)
  | .plain v => ((⌈v * 60⌉ : ℤ), false)

/-- Modelled from the spec: the duration accessor as the specification
sentence describes it, namely that a non-percent cell is an absolute frame
count "returned directly as that value".  Kept for comparison with
`MMSLine.duration`, which is embedded from the source. -/
def MMSLine.durationAsSpecified : DurationCell → ℚ × Bool
  | .pct n => (n / 100, true)
  | .plain v => (v, false)

/-- Embeds the sub-gloss slice width of the compound-gloss split in
`MMSParser.parse`: `delta = (end - start) / len(names)`. -/
def MMSParser.compoundDelta (S E : ℚ) (N : ℕ) : ℚ := (E - S) / N

/-- Embeds the row data produced for sub-gloss `i` of a compound split:
framestart, frameend and transition cells (in seconds, as the code stores
them back into the row). `scale = 0.3` in the source. -/
def MMSParser.compoundRow (S E trans : ℚ) (N : ℕ) (i : ℕ) : ℚ × ℚ × ℚ :=
  let delta := MMSParser.compoundDelta S E N
  ( S + delta * i
  , S + delta * (i + 1) - (3 / 10) * delta
  , if i = N - 1 then trans else (3 / 10) * delta )

/-- Embeds the full list of sub-gloss rows of the compound split loop. -/
def MMSParser.compoundSplit (S E trans : ℚ) (N : ℕ) : List (ℚ × ℚ × ℚ) :=
  (List.range N).map (MMSParser.compoundRow S E trans N)

/-- Embeds the trigger condition of the compound split:
`prefix != "signs" and "-" in name`. -/
def MMSParser.isCompoundRow (category name : String) : Bool :=
  category ≠ "signs" && name.contains (Char.ofNat 45)

/-- One parsed gloss entry as needed by the sorting step and the merge:
the key tuple `(idx, name)` together with the timing cells. -/
structure GlossEntry : Type where
  seqIdx : ℕ
  name : String
  datatype : String
  framestart : ℚ
  frameend : ℚ
deriving DecidableEq, Repr

/-- Start frame of an entry, the sorting key used by `MMSParser.parse`:
`sorted(glosses.items(), key=lambda x: x[1].timing()[0])`. -/
def GlossEntry.startFrame (g : GlossEntry) : ℤ := (MMSLine.timing g.framestart g.frameend).1

/-- End frame of an entry. -/
def GlossEntry.endFrame (g : GlossEntry) : ℤ := (MMSLine.timing g.framestart g.frameend).2

/-- The comparison used to order entries: non-decreasing start frame. -/
def GlossEntry.le (a b : GlossEntry) : Prop := a.startFrame ≤ b.startFrame

instance : DecidableRel GlossEntry.le := fun a b => by
  unfold GlossEntry.le; infer_instance

/-- Embeds the final sorting step of `MMSParser.parse`: a stable sort of the
entries by ascending start frame (Python `sorted` is a stable sort; we model
it with insertion sort, which is also stable). -/
def MMSParser.sortGlosses (l : List GlossEntry) : List GlossEntry :=
  List.insertionSort GlossEntry.le l

/-! ## Inflection target model (src/player/targets.py)

Transform values produced by mathutils calls are modelled symbolically as a
term algebra: the claims about targets concern only which value gets stored
(identity, a row-derived value, or Python `None`) and whether an operation
raises, never the numeric matrix contents. -/

/-- Symbolic mathutils value: a 4x4 matrix or a quaternion as built by the
source code. `ident` is both `Matrix.Identity(4)` and the identity
`Quaternion()`, the class-level defaults of `Target`. -/
inductive TVal : Type
  | ident
  | eulerMat (x y z : ℚ)
  | eulerQuat (x y z : ℚ)
  | translationOf (x y z : ℚ)
  | scaleDiag (x y z : ℚ)
  | matmul (a b : TVal)
  | qinv (a : TVal)
deriving DecidableEq, Repr

/-- Python `a @ b` between optional mathutils values: if either operand is
`None` the interpreter raises a TypeError. -/
def pyMatmul (a b : Option TVal) : Except String TVal :=
  match a, b with
  | some x, some y => .ok (.matmul x y)
  | _, _ => .error "TypeError: unsupported operand type for matmul"

/-- Embeds `MMSLine.handle_none`: returns the three cells of a vector group,
or `None` when any of them is empty. -/
def MMSLine.handle_none (x y z : Option ℚ) : Option (ℚ × ℚ × ℚ) :=
  match x, y, z with
  | some a, some b, some c => some (a, b, c)
  | _, _, _ => none

/-- A 3-cell group of one row, each cell possibly empty. -/
def CellTriple : Type := Option ℚ × Option ℚ × Option ℚ

/-- Embeds `MMSLine.traj_rotation`: Euler ZXY to 4x4 matrix, or `None`. -/
def MMSLine.traj_rotation (c : CellTriple) : Option TVal :=
  (MMSLine.handle_none c.1 c.2.1 c.2.2).map fun v => .eulerMat v.1 v.2.1 v.2.2

/-- Embeds `MMSLine.hand_orientation`: Euler ZXY to quaternion, or `None`. -/
def MMSLine.hand_orientation (c : CellTriple) : Option TVal :=
  (MMSLine.handle_none c.1 c.2.1 c.2.2).map fun v => .eulerQuat v.1 v.2.1 v.2.2

/-- Embeds `MMSLine.translation`: translation matrix, or `None`. -/
def MMSLine.translation (c : CellTriple) : Option TVal :=
  (MMSLine.handle_none c.1 c.2.1 c.2.2).map fun v => .translationOf v.1 v.2.1 v.2.2

/-- Embeds `MMSLine.scale`: diagonal scale matrix, or `None`. -/
def MMSLine.scale (c : CellTriple) : Option TVal :=
  (MMSLine.handle_none c.1 c.2.1 c.2.2).map fun v => .scaleDiag v.1 v.2.1 v.2.2

/-- Embeds `MMSLine.head_rot`: Euler ZXY to quaternion, or `None`. -/
def MMSLine.head_rot (c : CellTriple) : Option TVal :=
  (MMSLine.handle_none c.1 c.2.1 c.2.2).map fun v => .eulerQuat v.1 v.2.1 v.2.2

/-- Embeds `MMSLine.shoulder_shift`: translation matrix, or `None`. -/
def MMSLine.shoulder_shift (c : CellTriple) : Option TVal :=
  (MMSLine.handle_none c.1 c.2.1 c.2.2).map fun v => .translationOf v.1 v.2.1 v.2.2

/-- Embeds `MMSLine.torso_shift`: translation matrix, or `None`. -/
def MMSLine.torso_shift (c : CellTriple) : Option TVal :=
  (MMSLine.handle_none c.1 c.2.1 c.2.2).map fun v => .translationOf v.1 v.2.1 v.2.2

/-- Embeds `MMSLine.torso_rot`: Euler ZXY to quaternion, or `None`. -/
def MMSLine.torso_rot (c : CellTriple) : Option TVal :=
  (MMSLine.handle_none c.1 c.2.1 c.2.2).map fun v => .eulerQuat v.1 v.2.1 v.2.2

/-- Embeds `LocalRotationTarget.init_from_mms`:
`self.delta_o = mms.hand_orientation(self.dominance)`, which is `None` when
the component is absent. -/
def LocalRotationTarget.init_from_mms (rotCells : CellTriple) : Option TVal :=
  MMSLine.hand_orientation rotCells

/-- Embeds the value written as the target bone rotation by
`LocalRotationTarget.inflect`: when `delta_o` is not `None` the composed
relative rotation is assigned, otherwise `rotation_euler` is left untouched
and `keyframe_insert` records the current value. `cur` is the current local
rotation of the target bone, `tq`/`rq` the armature-space rotations of the
target/root bone, `tdq`/`rdq` the same for the dictionary armature bones. -/
def LocalRotationTarget.inflect (delta_o : Option TVal) (cur tq rq tdq rdq : TVal) : TVal :=
  match delta_o with
  | some d =>
      .matmul (.matmul (.matmul cur (.qinv tq)) rq)
        (.matmul d (.matmul (.qinv rdq) tdq))
  | none => cur

/-- The delta state of a `TrajectoryTarget` after initialization. -/
structure TrajDeltas : Type where
  delta_r : Option TVal
  delta_t : Option TVal
deriving DecidableEq, Repr

/-- Embeds `TrajectoryTarget.init_from_mms`:
`self.delta_r = h_rotation @ h_scale; self.delta_t = h_translation`.
The matmul raises a TypeError when either operand is `None`; the plain
assignment of `h_translation` cannot raise even when it is `None`. -/
def TrajectoryTarget.init_from_mms (relocCells relocaCells relocsCells : CellTriple) :
    Except String TrajDeltas :=
  match pyMatmul (MMSLine.traj_rotation relocaCells) (MMSLine.scale relocsCells) with
  | .ok r => .ok ⟨some r, MMSLine.translation relocCells⟩
  | .error e => .error e

/-- The delta state of the `RelativeLocRot`/`HeadRotation` variants:
`delta_t` and `delta_o`, with the class-level identity defaults when
`init_from_mms` does not overwrite them. -/
structure LocRotDeltas : Type where
  delta_t : Option TVal
  delta_o : Option TVal
deriving DecidableEq, Repr

/-- Embeds `RelativeLocRotTarget.init_from_mms`: for inflection type
`torso` both deltas are loaded from the row; for `shoulder` only
`delta_t` is loaded and `delta_o` keeps the identity class default; for any
other type both keep their class defaults. -/
def RelativeLocRotTarget.init_from_mms (itype : String)
    (torsoRelocCells torsoRelocaCells shoulderCells : CellTriple) : LocRotDeltas :=
  if itype = "torso" then
    ⟨MMSLine.torso_shift torsoRelocCells, MMSLine.torso_rot torsoRelocaCells⟩
  else if itype = "shoulder" then
    ⟨MMSLine.shoulder_shift shoulderCells, some .ident⟩
  else ⟨some .ident, some .ident⟩

/-- Embeds `RelativeLocRotTarget.inflect`: first
`self.ctrl.location = self.delta_t @ location` then
`self.ctrl.rotation_quaternion = self.ctrl.rotation_quaternion @ self.delta_o`;
either matmul raises a TypeError when the corresponding delta is `None`.
Returns the new (location, rotation) of the controller. -/
def RelativeLocRotTarget.inflect (d : LocRotDeltas) (loc rotq : TVal) :
    Except String (TVal × TVal) :=
  match pyMatmul d.delta_t (some loc) with
  | .error e => .error e
  | .ok newLoc =>
      match pyMatmul (some rotq) d.delta_o with
      | .error e => .error e
      | .ok newRot => .ok (newLoc, newRot)

/-- Embeds `HeadRotTarget.init_from_mms`: `self.delta_o = mms.head_rot()`. -/
def HeadRotTarget.init_from_mms (headrotCells : CellTriple) : Option TVal :=
  MMSLine.head_rot headrotCells

/-- Embeds `HeadRotTarget.inflect`:
`self.ctrl.rotation_quaternion = self.ctrl.rotation_quaternion @ self.delta_o`,
raising a TypeError when `delta_o` is `None`. -/
def HeadRotTarget.inflect (delta_o : Option TVal) (rotq : TVal) : Except String TVal :=
  pyMatmul (some rotq) delta_o

/-! ## Animation actions and the resampler
(src/player/ArmatureUtils.py, src/player/extract.py) -/

/-- One animation channel (Blender f-curve): a data path, an array index and
a list of keyframe points, each a (frame, value) pair. -/
structure FCurve : Type where
  data_path : String
  array_index : ℕ
  keyframe_points : List (ℚ × ℚ)
deriving DecidableEq, Repr

/-- An animation action: its list of f-curves. -/
structure AnimAction : Type where
  fcurves : List FCurve
deriving DecidableEq, Repr

/-- Whether a channel has the given data path and array index. -/
def FCurve.matchKey (c : FCurve) (path : String) (idx : ℕ) : Bool :=
  c.data_path = path && c.array_index = idx

/-- Embeds `action.fcurves.find(data_path, index=...)`: the first channel
with the given data path and array index, or `None`. -/
def AnimAction.fcurvesFind (a : AnimAction) (path : String) (idx : ℕ) : Option FCurve :=
  a.fcurves.find? fun c => c.matchKey path idx

/-- Embeds `fcurve.keyframe_points.insert(frame, value)`: replaces the sample
at that frame when one exists, otherwise records a new sample. -/
def FCurve.insertKeyframe (kps : List (ℚ × ℚ)) (f v : ℚ) : List (ℚ × ℚ) :=
  if kps.any (fun p => p.1 = f) then
    kps.map fun p => if p.1 = f then (f, v) else p
  else kps ++ [(f, v)]

/-- Replaces the keyframe list of the channel with the given key. -/
def AnimAction.updateCurve (a : AnimAction) (path : String) (idx : ℕ) (kps : List (ℚ × ℚ)) : AnimAction :=
  ⟨a.fcurves.map fun c =>
    if c.matchKey path idx then { c with keyframe_points := kps } else c⟩

/-- The keyframe list of the first channel with the given key. -/
def AnimAction.lookupKps (a : AnimAction) (path : String) (idx : ℕ) : Option (List (ℚ × ℚ)) :=
  (a.fcurvesFind path idx).map FCurve.keyframe_points

/-- The recorded sample value of a keyframe list at a given frame. -/
def FCurve.valueAt (kps : List (ℚ × ℚ)) (f : ℚ) : Option ℚ :=
  (kps.find? fun p => p.1 = f).map Prod.snd

/-- Largest keyframe frame number of an action
(second component of Blender `action.frame_range`, 0 for an empty action). -/
def AnimAction.frameEnd (a : AnimAction) : ℚ :=
  ((a.fcurves.map fun c => c.keyframe_points.map Prod.fst).flatten).foldr max 0

/-- Embeds the sample positions of `ArmatureOperator.resample`:
`ratio = (frame_end - frame_start) / (target_frame_count - 1)` and
`samples = [frame_start + x * ratio for x in range(target_frame_count)]`. -/
def ArmatureOperator.samplePositions (f0 f1 : ℚ) (T : ℕ) : List ℚ :=
  (List.range T).map fun i : ℕ => f0 + (i : ℚ) * ((f1 - f0) / ((T : ℚ) - 1))

/-- Embeds the per-channel effect of the resampling loop together with
`extract.set_rotation_and_location`: the source channel is evaluated at each
sample position and the value is written as keyframe `i + 1` of the new
channel.  `eval` is the host curve-evaluation capability
(`fcurve.evaluate`). -/
def ArmatureOperator.resampleChannel (eval : ℚ → ℚ) (f0 f1 : ℚ) (T : ℕ) : List (ℚ × ℚ) :=
  (List.range T).map fun i : ℕ =>
    ((i : ℚ) + 1, eval (f0 + (i : ℚ) * ((f1 - f0) / ((T : ℚ) - 1))))

/-! ## Glue / merge stage (src/player/merge.py) -/

/-- Embeds the per-channel body of `Glue.perform_hold`: look up the matching
target channel, read the last keyframe point of the source channel
(an IndexError on an empty channel), and insert two samples carrying its
value at `start` and at `end`.  A failed lookup is an AttributeError when the
insert is attempted on `None`. -/
def Glue.holdStep (s e : ℚ) (acc : AnimAction) (sc : FCurve) : Except String AnimAction :=
  let found := acc.fcurvesFind sc.data_path sc.array_index
  match sc.keyframe_points.getLast? with
  | none => .error "IndexError: list index out of range"
  | some lastKp =>
      match found with
      | none => .error "AttributeError: NoneType has no attribute keyframe_points"
      | some tc =>
          .ok (acc.updateCurve sc.data_path sc.array_index
            (FCurve.insertKeyframe
              (FCurve.insertKeyframe tc.keyframe_points s lastKp.2) e lastKp.2))

/-- Embeds `Glue.perform_hold`: applies `Glue.holdStep` for every source
channel and returns `end` as the resulting frame. -/
def Glue.perform_hold (target source : AnimAction) (s e : ℚ) : Except String (AnimAction × ℚ) :=
  match source.fcurves.foldlM (Glue.holdStep s e) target with
  | .ok t => .ok (t, e)
  | .error err => .error err

/-- Embeds the per-channel body of `Glue.combine_animation`: look up the
matching target channel and copy every source sample, offsetting its frame by
`start - 1`.  A failed lookup is an AttributeError. -/
def Glue.combineStep (start : ℚ) (acc : AnimAction) (sc : FCurve) : Except String AnimAction :=
  match acc.fcurvesFind sc.data_path sc.array_index with
  | none => .error "AttributeError: NoneType has no attribute keyframe_points"
  | some tc =>
      .ok (acc.updateCurve sc.data_path sc.array_index
        (sc.keyframe_points.foldl
          (fun kps p => FCurve.insertKeyframe kps (p.1 + start - 1) p.2)
          tc.keyframe_points))

/-- Embeds `Glue.combine_animation`: copies every channel of the source into
the target and returns `int(action_end) + start` as the resulting end
frame. -/
def Glue.combine_animation (target source : AnimAction) (start : ℚ) : Except String (AnimAction × ℚ) :=
  match source.fcurves.foldlM (Glue.combineStep start) target with
  | .ok t => .ok (t, (pyInt source.frameEnd : ℚ) + start)
  | .error err => .error err

/-- Embeds `Glue.create_new_fcurves`: asserts the reference action has
channels, then creates one empty channel in the new action for every channel
key of the reference action (the action of the first inflected gloss). -/
def Glue.create_new_fcurves (ref : AnimAction) : Except String AnimAction :=
  if ref.fcurves = [] then .error "AssertionError: the action has no animation data"
  else .ok ⟨ref.fcurves.map fun c => { c with keyframe_points := [] }⟩

/-- One gloss of the timing table as the merge stage consumes it: the key
tuple component `seqIdx` (`gloss[0]`), the timing and duration cells, the
original (pre-resample) frame range collected by the resampler, the baked
inflected animation and the result of the resolved-path existence test. -/
structure MergeGloss : Type where
  seqIdx : ℕ
  name : String
  datatype : String
  framestart : ℚ
  frameend : ℚ
  transitionSecs : ℚ
  durationCell : DurationCell
  origFrameRange : ℚ × ℚ
  animation : AnimAction
  pathExists : Bool
deriving DecidableEq, Repr

/-- The running state of `Glue.merge_animation`: the last expected gloss end
(`last_gloss_end`, initially 1) and the accumulating final action. -/
structure MergeState : Type where
  last_gloss_end : ℚ
  finalAnim : AnimAction
deriving DecidableEq, Repr

/-- Embeds the HOLD-source selection of `Glue.merge_animation`:
`prev_gloss_index = gloss[0] - 1; prev_gloss_id = self.mms.glosses[prev_gloss_index]`,
an index into the time-sorted glosses list computed from the original parse
sequence index, with Python negative-index wrapping. -/
def Glue.holdSourceGloss (glosses : List MergeGloss) (g : MergeGloss) : Option MergeGloss :=
  pyGet glosses ((g.seqIdx : ℤ) - 1)

/-- Embeds one iteration of the `Glue.merge_animation` loop up to (but not
including) the final assertion: computes the expected start/end window in
absolute or relative mode, performs the hold or combine branch, and returns
the new final action, the expected end and the end frame returned by the
branch. -/
def Glue.mergeStepRaw (glosses : List MergeGloss) (useRelTime : Bool)
    (st : MergeState) (g : MergeGloss) : Except String (AnimAction × ℚ × ℚ) :=
  let startEnd : Except String (ℚ × ℚ) :=
    if useRelTime then
      let start := st.last_gloss_end + (MMSLine.transition g.transitionSecs : ℚ)
      let dur := MMSLine.duration g.durationCell
      if dur.2 then
        if 0 ≤ dur.1 ∧ dur.1 ≤ 1 then
          .ok (start, start + (g.origFrameRange.2 - g.origFrameRange.1) * dur.1)
        else .error "AssertionError: relative duration out of range"
      else .ok (start, start + dur.1)
    else
      let t := MMSLine.timing g.framestart g.frameend
      .ok ((t.1 : ℚ) + 1, (t.2 : ℚ) + 1)
  match startEnd with
  | .error e => .error e
  | .ok (start, endExpected) =>
      if g.datatype = "HOLD" then
        match Glue.holdSourceGloss glosses g with
        | none => .error "IndexError: list index out of range"
        | some prev =>
            match Glue.perform_hold st.finalAnim prev.animation start endExpected with
            | .error e => .error e
            | .ok (f, endFrame) => .ok (f, endExpected, endFrame)
      else
        match Glue.combine_animation st.finalAnim g.animation start with
        | .error e => .error e
        | .ok (f, endFrame) => .ok (f, endExpected, endFrame)

/-- Embeds one full iteration of `Glue.merge_animation`, final assertion
included: a gloss whose resolved path no longer exists is skipped
(the documented rough edge), `last_gloss_end` is updated to the expected end,
and `assert end - 1 <= end_frame <= end + 1` aborts the pipeline when the
returned end frame deviates by more than one frame. -/
def Glue.mergeStep (glosses : List MergeGloss) (useRelTime : Bool)
    (st : MergeState) (g : MergeGloss) : Except String MergeState :=
  if ¬ g.pathExists then .ok st
  else
    match Glue.mergeStepRaw glosses useRelTime st g with
    | .error e => .error e
    | .ok (f, endExpected, endFrame) =>
        if endExpected - 1 ≤ endFrame ∧ endFrame ≤ endExpected + 1 then
          .ok ⟨endExpected, f⟩
        else .error "AssertionError: end and end_frame are not compatible"

/-- Embeds `Glue.merge_animation`: folds the merge step over the
time-sorted glosses, starting from `last_gloss_end = 1`. -/
def Glue.merge_animation (glosses : List MergeGloss) (useRelTime : Bool)
    (finalAnim : AnimAction) : Except String MergeState :=
  glosses.foldlM (Glue.mergeStep glosses useRelTime) ⟨1, finalAnim⟩

/-! ## Mocap path resolution (src/player/mms_parser.py, MMS.find_mocap_data_files) -/

/-- A gloss entry as the path-resolution pass sees it. -/
structure ParsedGloss : Type where
  name : String
  datatype : String
  path : String
deriving DecidableEq, Repr

/-- First substring of `s` enclosed in angle brackets, the lazy regex
match of the pattern used by `find_mocap_data_files`. -/
def firstAngleTag (s : String) : Option String :=
  match s.toList.dropWhile (fun c => c ≠ Char.ofNat 60) with
  | [] => none
  | _ :: rest =>
      if rest.any (fun c => c = Char.ofNat 62) then
        some (String.mk (rest.takeWhile (fun c => c ≠ Char.ofNat 62)))
      else none

/-- Whether a gloss row is a HOLD pseudo-gloss:
`len(matches) > 0 and matches[0] == "HOLD"`. -/
def ParsedGloss.isHold (g : ParsedGloss) : Bool :=
  firstAngleTag g.name = some "HOLD"

/-- The asset path composed for a non-HOLD gloss:
`generated_root / datatype / "trimmed" / (name + ".blend")`. -/
def ParsedGloss.assetPath (root : String) (g : ParsedGloss) : String :=
  root ++ "/" ++ g.datatype ++ "/trimmed/" ++ g.name ++ ".blend"

/-- Embeds the loop of `MMS.find_mocap_data_files`.  The accumulator
`glossPathVar` models the Python local variable `gloss_path`: the loop body
ends with `self[gloss_id].path = gloss_path` for both branches, so a HOLD
entry receives the `gloss_path` left over from the most recent non-HOLD
iteration (which overwrites the direct copy of the previous entry's path
taken earlier in the HOLD branch, with the same net result), and a HOLD with
no preceding non-HOLD entry hits an unbound local variable (a NameError).
`pathPresent` is the host filesystem existence test. -/
def MMS.findMocapGo (root : String) (pathPresent : String → Bool)
    (glossPathVar : Option String) :
    List ParsedGloss → Except String (List ParsedGloss)
  | [] => .ok []
  | g :: rest =>
      if g.isHold then
        match glossPathVar with
        | none => .error "NameError: local variable gloss_path referenced before assignment"
        | some p =>
            match MMS.findMocapGo root pathPresent (some p) rest with
            | .error e => .error e
            | .ok out => .ok ({ g with path := p, datatype := "HOLD" } :: out)
      else
        let p := g.assetPath root
        if pathPresent p then
          match MMS.findMocapGo root pathPresent (some p) rest with
          | .error e => .error e
          | .ok out => .ok ({ g with path := p } :: out)
        else .error "Exception: expected motion capture file not present"

/-- Embeds `MMS.find_mocap_data_files` over the time-ordered entries. -/
def MMS.find_mocap_data_files (root : String) (pathPresent : String → Bool)
    (glosses : List ParsedGloss) : Except String (List ParsedGloss) :=
  MMS.findMocapGo root pathPresent none glosses

/-- The asset path of the nearest non-HOLD entry preceding position `i`,
as resolved by the pass. -/
def MMS.prevNonHoldPath (root : String) (glosses : List ParsedGloss) (i : ℕ) : Option String :=
  (((glosses.take i).filter fun g => ¬ g.isHold).getLast?).map (ParsedGloss.assetPath root)

/-! ## Claim C2: compound split partition -/

/-- C2: for a compound row with window start `S`, end `E` (`S < E`) and `N`
sub-glosses (`0 < N`), the split gives sub-gloss `i` the start `S + i * delta`
and the end `S + (i+1) * delta - 0.3 * delta` with `delta = (E - S) / N`; the
boundaries `S + i * delta` partition `[S, E)` exactly (first boundary `S`,
last boundary `E`, each boundary the previous one plus `delta`); every
ratio-derived transition `0.3 * delta` is strictly less than the slice length
`delta`; and the last sub-gloss keeps the original transition value. -/
theorem claim_C2 (S E trans : ℚ) (N : ℕ) (hN : 0 < N) (hSE : S < E) :
    (MMSParser.compoundSplit S E trans N).length = N ∧
    (∀ i, i < N →
      (MMSParser.compoundSplit S E trans N).get? i =
        some (S + MMSParser.compoundDelta S E N * i,
              S + MMSParser.compoundDelta S E N * (i + 1)
                - (3 / 10) * MMSParser.compoundDelta S E N,
              if i = N - 1 then trans
              else (3 / 10) * MMSParser.compoundDelta S E N)) ∧
    S + MMSParser.compoundDelta S E N * (0 : ℕ) = S ∧
    S + MMSParser.compoundDelta S E N * (N : ℕ) = E ∧
    (∀ i : ℕ, S + MMSParser.compoundDelta S E N * ((i : ℚ) + 1)
        = (S + MMSParser.compoundDelta S E N * i) + MMSParser.compoundDelta S E N) ∧
    (3 / 10) * MMSParser.compoundDelta S E N < MMSParser.compoundDelta S E N ∧
    (MMSParser.compoundRow S E trans N (N - 1)).2.2 = trans := by
  have hNQ : (0 : ℚ) < (N : ℚ) := by exact_mod_cast hN
  have hdelta : 0 < MMSParser.compoundDelta S E N := by
    unfold MMSParser.compoundDelta
    exact div_pos (by linarith) hNQ
  refine ⟨?_, ?_, ?_, ?_, ?_, ?_, ?_⟩
  · simp [MMSParser.compoundSplit]
  · intro i hi
    simp only [MMSParser.compoundSplit, List.get?_eq_getElem?, List.getElem?_map,
      List.getElem?_range hi, Option.map_some]
    rfl
  · simp
  · unfold MMSParser.compoundDelta
    field_simp
  · intro i; ring
  · linarith
  · simp [MMSParser.compoundRow]

/-- C2 witness: the split of the window `[0, 3)` into 3 sub-glosses with
original transition `7/2`. -/
theorem claim_C2_witness :
    (MMSParser.compoundSplit 0 3 (7 / 2) 3).length = 3 ∧
    (∀ i, i < 3 →
      (MMSParser.compoundSplit 0 3 (7 / 2) 3).get? i =
        some ((0 : ℚ) + MMSParser.compoundDelta 0 3 3 * i,
              0 + MMSParser.compoundDelta 0 3 3 * (i + 1)
                - (3 / 10) * MMSParser.compoundDelta 0 3 3,
              if i = 3 - 1 then 7 / 2
              else (3 / 10) * MMSParser.compoundDelta 0 3 3)) ∧
    (0 : ℚ) + MMSParser.compoundDelta 0 3 3 * ((0 : ℕ) : ℚ) = 0 ∧
    (0 : ℚ) + MMSParser.compoundDelta 0 3 3 * ((3 : ℕ) : ℚ) = 3 ∧
    (∀ i : ℕ, (0 : ℚ) + MMSParser.compoundDelta 0 3 3 * ((i : ℚ) + 1)
        = ((0 : ℚ) + MMSParser.compoundDelta 0 3 3 * i) + MMSParser.compoundDelta 0 3 3) ∧
    (3 / 10) * MMSParser.compoundDelta 0 3 3 < MMSParser.compoundDelta 0 3 3 ∧
    (MMSParser.compoundRow 0 3 (7 / 2) 3 (3 - 1)).2.2 = 7 / 2 :=
  claim_C2 0 3 (7 / 2) 3 (by norm_num) (by norm_num)

/-! ## Claim C3: timing monotonicity -/

instance : IsTotal GlossEntry GlossEntry.le :=
  ⟨fun a b => le_total a.startFrame b.startFrame⟩

instance : IsTrans GlossEntry GlossEntry.le :=
  ⟨fun _ _ _ hab hbc => le_trans hab hbc⟩

/-- C3 counterexample: the claim also asserts `entry.start <= entry.end` for
every parsed entry, but the ceil/floor asymmetry inverts the frames of a row
timed at seconds `[1.61, 1.616)` (shorter than 1/60 s): the timing is
`(97, 96)`, exactly the inversion documented in the source comment. -/
theorem claim_C3_counterexample :
    ¬ (MMSLine.timing (161 / 100) (1616 / 1000)).1 ≤ (MMSLine.timing (161 / 100) (1616 / 1000)).2 := by
  have h1 : (MMSLine.timing (161 / 100) (1616 / 1000)).1 = 97 := by
    simp only [MMSLine.timing]
    rw [show (161 / 100 : ℚ) * 60 = 483 / 5 by norm_num]
    rw [Int.ceil_eq_iff]
    norm_num
  have h2 : (MMSLine.timing (161 / 100) (1616 / 1000)).2 = 96 := by
    simp only [MMSLine.timing]
    rw [show (1616 / 1000 : ℚ) * 60 = 2424 / 25 by norm_num]
    rw [Int.floor_eq_iff]
    norm_num
  rw [h1, h2]
  norm_num

/-- C3 amended: after the final sort of `MMSParser.parse` the entries are
non-decreasing in start frame (for every consecutive pair); and
`entry.start <= entry.end` holds for every entry whose duration in seconds is
at least 1/60 — for shorter rows the ceil/floor conversion can invert the
two frames, the edge case the source documents. -/
theorem claim_C3_amended (l : List GlossEntry) :
    (MMSParser.sortGlosses l).Sorted GlossEntry.le ∧
    (∀ g : GlossEntry, 1 / 60 ≤ g.frameend - g.framestart →
      g.startFrame ≤ g.endFrame) := by
  constructor
  · exact List.sorted_insertionSort GlossEntry.le l
  · intro g hg
    simp only [GlossEntry.startFrame, GlossEntry.endFrame, MMSLine.timing]
    have h1 : g.framestart * 60 + 1 ≤ g.frameend * 60 := by linarith
    have h2 : (⌈g.framestart * 60⌉ : ℚ) < g.framestart * 60 + 1 :=
      Int.ceil_lt_add_one _
    exact Int.le_floor.mpr (le_of_lt (lt_of_lt_of_le h2 h1))

/-- C3 witness: a concrete two-entry table given out of order is sorted by
start frame, and a concrete entry lasting a full second has its start frame
at or before its end frame. -/
theorem claim_C3_witness :
    (MMSParser.sortGlosses
      [⟨0, "B", "signs", 1, 2⟩, ⟨1, "A", "signs", 0, 1⟩]).Sorted GlossEntry.le ∧
    GlossEntry.startFrame ⟨0, "A", "signs", 0, 1⟩ ≤
      GlossEntry.endFrame ⟨0, "A", "signs", 0, 1⟩ :=
  ⟨(claim_C3_amended [⟨0, "B", "signs", 1, 2⟩, ⟨1, "A", "signs", 0, 1⟩]).1,
   (claim_C3_amended []).2 ⟨0, "A", "signs", 0, 1⟩ (by norm_num)⟩

/-! ## Claim C4: duration parsing -/

/-- C4 counterexample: the claim asserts that a non-percent duration cell is
returned directly as an absolute frame count, but the source converts the
cell from seconds to frames: for the cell value 2 the parser returns
`(ceil(2 * 60), False) = (120, False)`, not `(2, False)`. -/
theorem claim_C4_counterexample :
    MMSLine.duration (.plain 2) ≠ MMSLine.durationAsSpecified (.plain 2) := by
  have h : MMSLine.duration (.plain 2) = ((120 : ℚ), false) := by
    simp only [MMSLine.duration]
    norm_num
  rw [h]
  simp only [MMSLine.durationAsSpecified]
  intro hc
  have := congrArg Prod.fst hc
  norm_num at this

/-- C4 amended: a percent cell `NN%` parses to the pair `(NN/100, True)`
(with no range restriction at parse time); a plain cell parses to
`(ceil(cell * 60), False)`, i.e. the seconds value converted to a frame
count, not the cell returned directly; and a ratio-valued duration is
resolved only later, inside the merge step, by multiplying against the
gloss's original (pre-resample) frame span — provided the merge-time
assertion `0 <= ratio <= 1` holds. -/
theorem claim_C4_amended (n v : ℚ) (glosses : List MergeGloss)
    (st : MergeState) (g : MergeGloss)
    (hcell : g.durationCell = .pct n)
    (hr0 : 0 ≤ n / 100) (hr1 : n / 100 ≤ 1) :
    MMSLine.duration (.pct n) = (n / 100, true) ∧
    MMSLine.duration (.plain v) = (((⌈v * 60⌉ : ℤ) : ℚ), false) ∧
    Glue.mergeStepRaw glosses true st g =
      (let start := st.last_gloss_end + (MMSLine.transition g.transitionSecs : ℚ)
       let endExpected :=
         start + (g.origFrameRange.2 - g.origFrameRange.1) * (n / 100)
       if g.datatype = "HOLD" then
         match Glue.holdSourceGloss glosses g with
         | none => .error "IndexError: list index out of range"
         | some prev =>
             match Glue.perform_hold st.finalAnim prev.animation start endExpected with
             | .error e => .error e
             | .ok (f, endFrame) => .ok (f, endExpected, endFrame)
       else
         match Glue.combine_animation st.finalAnim g.animation start with
         | .error e => .error e
         | .ok (f, endFrame) => .ok (f, endExpected, endFrame)) := by
  refine ⟨rfl, rfl, ?_⟩
  simp [Glue.mergeStepRaw, hcell, MMSLine.duration, hr0, hr1]

/-- Unfolding lemma: `pure` of the `Except` monad is `Except.ok`. -/
theorem except_pure_def {ε α : Type} (a : α) : (pure a : Except ε α) = .ok a := rfl

/-- C4 witness: the amended statement instantiated at the concrete percent
cell `50%` on a gloss with original frame range `(1, 31)`: the merge step
resolves the relative duration to `30 * (1/2) = 15` frames, giving the
expected end 16 from start 1. -/
theorem claim_C4_witness :
    MMSLine.duration (.pct 50) = ((1 : ℚ) / 2, true) ∧
    Glue.mergeStepRaw [] true ⟨1, ⟨[]⟩⟩
      ⟨0, "A", "signs", 0, 1, 0, .pct 50, (1, 31), ⟨[]⟩, true⟩ =
      .ok (⟨[]⟩, 16, 1) := by
  have h := claim_C4_amended 50 2 [] ⟨1, ⟨[]⟩⟩
    ⟨0, "A", "signs", 0, 1, 0, .pct 50, (1, 31), ⟨[]⟩, true⟩
    rfl (by norm_num) (by norm_num)
  refine ⟨?_, ?_⟩
  · rw [h.1]; norm_num
  · rw [h.2.2]
    simp [MMSLine.transition, Glue.combine_animation, AnimAction.frameEnd,
      pyInt, except_pure_def]
    norm_num

/-! ## Claim C5: resampler sampling formula -/

/-- C5: for a source animation on frames `[f0, f1]` and a target sample
count `T >= 2`, the resampled channel has exactly `T` keyframes; keyframe
`i` (0-based) is written at frame `i + 1` with the source channel evaluated
at `f0 + i * ((f1 - f0) / (T - 1))`; the keyframes occupy frames `1..T`;
the first sample evaluates the source at `f0` and the last at `f1`. -/
theorem claim_C5 (eval : ℚ → ℚ) (f0 f1 : ℚ) (T : ℕ) (hT : 2 ≤ T) :
    (ArmatureOperator.resampleChannel eval f0 f1 T).length = T ∧
    (∀ i, i < T →
      (ArmatureOperator.resampleChannel eval f0 f1 T).get? i =
        some ((i : ℚ) + 1, eval (f0 + i * ((f1 - f0) / ((T : ℚ) - 1))))) ∧
    (ArmatureOperator.resampleChannel eval f0 f1 T).map Prod.fst =
      (List.range T).map (fun i : ℕ => (i : ℚ) + 1) ∧
    (ArmatureOperator.resampleChannel eval f0 f1 T).head? = some (1, eval f0) ∧
    (ArmatureOperator.resampleChannel eval f0 f1 T).getLast? =
      some ((T : ℚ), eval f1) := by
  have hT1 : (1 : ℚ) ≤ (T : ℚ) := by exact_mod_cast Nat.one_le_of_lt hT
  have hTne : (T : ℚ) - 1 ≠ 0 := by
    intro hc
    have : (T : ℚ) = 1 := by linarith
    have : T = 1 := by exact_mod_cast this
    omega
  have hlen : (ArmatureOperator.resampleChannel eval f0 f1 T).length = T := by
    rw [ArmatureOperator.resampleChannel, List.length_map, List.length_range]
  have hget : ∀ i, i < T →
      (ArmatureOperator.resampleChannel eval f0 f1 T).get? i =
        some ((i : ℚ) + 1, eval (f0 + i * ((f1 - f0) / ((T : ℚ) - 1)))) := by
    intro i hi
    simp only [ArmatureOperator.resampleChannel, List.get?_eq_getElem?,
      List.getElem?_map, List.getElem?_range hi]
    rfl
  refine ⟨hlen, hget, ?_, ?_, ?_⟩
  · rw [ArmatureOperator.resampleChannel, List.map_map]
    rfl
  · have h0 := hget 0 (by omega)
    rw [List.head?_eq_getElem?, ← List.get?_eq_getElem?, h0]
    norm_num
  · have hlast := hget (T - 1) (by omega)
    rw [List.getLast?_eq_getElem?, hlen, ← List.get?_eq_getElem?, hlast]
    have hc : ((T - 1 : ℕ) : ℚ) = (T : ℚ) - 1 := by
      have : (1 : ℕ) ≤ T := by omega
      push_cast [Nat.cast_sub this]
      ring
    rw [hc]
    congr 2
    · linarith
    · congr 1
      field_simp

/-- C5 witness: the spec example, a source on frames `[1, 30]` resampled to
`T = 16` samples: the new channel occupies frames 1 to 16; the first sample
evaluates at frame 1, the last at frame 30. -/
theorem claim_C5_witness :
    (ArmatureOperator.resampleChannel id 1 30 16).length = 16 ∧
    (ArmatureOperator.resampleChannel id 1 30 16).head? = some (1, id 1) ∧
    (ArmatureOperator.resampleChannel id 1 30 16).getLast? = some (16, id 30) :=
  ⟨(claim_C5 id 1 30 16 (by norm_num)).1,
   (claim_C5 id 1 30 16 (by norm_num)).2.2.2.1,
   by
     have h := (claim_C5 id 1 30 16 (by norm_num)).2.2.2.2
     simpa using h⟩

/-! ## Claim C1: absent inflection component -/

/-- C1 counterexample: for the Trajectory variant and a row whose hand
relocation component is entirely absent (all reloc/reloca/relocs cells
empty), `init_from_mms` does not set the delta to identity — evaluating
`h_rotation @ h_scale` on two `None` operands raises a TypeError, so the
initialization returns no delta state at all. -/
theorem claim_C1_counterexample :
    ¬ ∃ d : TrajDeltas,
      TrajectoryTarget.init_from_mms (none, none, none) (none, none, none)
        (none, none, none) = .ok d := by
  rintro ⟨d, hd⟩
  simp [TrajectoryTarget.init_from_mms, MMSLine.traj_rotation, MMSLine.scale,
    MMSLine.handle_none, pyMatmul] at hd

/-- C1 amended: only the LocalRotation variant treats an entirely absent
InflectionVector component as a no-op — its `delta_o` is set to `None` (not
to the identity) and `inflect` then leaves the current rotation untouched
and raises nothing.  For the Trajectory variant an absent hand-relocation
component makes `init_from_mms` itself raise a TypeError (`None @ None`);
for the RelativeLocRot variant (both the torso and the shoulder inflection
types) the deltas are stored as `None` and the next `inflect` call raises a
TypeError; for the HeadRotation variant `delta_o` is stored as `None` and
the next `inflect` call raises a TypeError. -/
theorem claim_C1_amended :
    (LocalRotationTarget.init_from_mms (none, none, none) = none ∧
      ∀ cur tq rq tdq rdq : TVal,
        LocalRotationTarget.inflect none cur tq rq tdq rdq = cur) ∧
    (∀ relocCells : CellTriple, ∃ msg,
      TrajectoryTarget.init_from_mms relocCells (none, none, none)
        (none, none, none) = .error msg) ∧
    (RelativeLocRotTarget.init_from_mms "torso" (none, none, none)
        (none, none, none) (none, none, none) = ⟨none, none⟩ ∧
      ∀ loc rotq : TVal, ∃ msg,
        RelativeLocRotTarget.inflect ⟨none, none⟩ loc rotq = .error msg) ∧
    (RelativeLocRotTarget.init_from_mms "shoulder" (none, none, none)
        (none, none, none) (none, none, none) = ⟨none, some .ident⟩ ∧
      ∀ loc rotq : TVal, ∃ msg,
        RelativeLocRotTarget.inflect ⟨none, some .ident⟩ loc rotq = .error msg) ∧
    (HeadRotTarget.init_from_mms (none, none, none) = none ∧
      ∀ rotq : TVal, ∃ msg, HeadRotTarget.inflect none rotq = .error msg) := by
  refine ⟨⟨rfl, fun cur tq rq tdq rdq => rfl⟩, ?_, ⟨rfl, ?_⟩, ⟨rfl, ?_⟩, ⟨rfl, ?_⟩⟩
  · intro relocCells
    exact ⟨_, rfl⟩
  · intro loc rotq
    exact ⟨_, rfl⟩
  · intro loc rotq
    exact ⟨_, rfl⟩
  · intro rotq
    exact ⟨_, rfl⟩

/-! ## Claim C6: hold freezes the source's last value -/

/-- The channel key of an f-curve: its data path and array index. -/
def FCurve.keyOf (c : FCurve) : String × ℕ := (c.data_path, c.array_index)

/-- Updating the keyframe list does not change a channel's key match. -/
theorem FCurve.matchKey_update (c : FCurve) (kps : List (ℚ × ℚ)) (p : String) (i : ℕ) :
    FCurve.matchKey { c with keyframe_points := kps } p i = FCurve.matchKey c p i := rfl

/-- Characterization of a key match. -/
theorem FCurve.matchKey_iff (c : FCurve) (p : String) (i : ℕ) :
    FCurve.matchKey c p i = true ↔ c.data_path = p ∧ c.array_index = i := by
  simp [FCurve.matchKey]

/-- Looking up the updated key returns the new keyframe list (when the key
was present at all). -/
theorem AnimAction.lookupKps_updateCurve_self (a : AnimAction) (p : String) (i : ℕ)
    (kps : List (ℚ × ℚ)) :
    (a.updateCurve p i kps).lookupKps p i = (a.lookupKps p i).map fun _ => kps := by
  obtain ⟨l⟩ := a
  simp only [AnimAction.lookupKps, AnimAction.updateCurve, AnimAction.fcurvesFind]
  induction l with
  | nil => rfl
  | cons c cs ih =>
      rw [List.map_cons]
      by_cases hc : c.matchKey p i = true
      · rw [if_pos hc, List.find?_cons, List.find?_cons]
        simp only [FCurve.matchKey_update, hc]
        rfl
      · rw [if_neg hc, List.find?_cons, List.find?_cons]
        rw [Bool.not_eq_true] at hc
        simp only [hc]
        exact ih

/-- Looking up a different key is unaffected by the update. -/
theorem AnimAction.lookupKps_updateCurve_other (a : AnimAction) (p : String) (i : ℕ)
    (kps : List (ℚ × ℚ)) (q : String) (j : ℕ) (h : ¬ (q = p ∧ j = i)) :
    (a.updateCurve p i kps).lookupKps q j = a.lookupKps q j := by
  obtain ⟨l⟩ := a
  simp only [AnimAction.lookupKps, AnimAction.updateCurve, AnimAction.fcurvesFind]
  induction l with
  | nil => rfl
  | cons c cs ih =>
      rw [List.map_cons]
      by_cases hc : c.matchKey p i = true
      · have hq : c.matchKey q j = false := by
          rcases (FCurve.matchKey_iff c p i).mp hc with ⟨h1, h2⟩
          rw [Bool.eq_false_iff]
          intro hcq
          rcases (FCurve.matchKey_iff c q j).mp hcq with ⟨h3, h4⟩
          exact h ⟨by rw [← h3, h1], by rw [← h4, h2]⟩
        rw [if_pos hc, List.find?_cons, List.find?_cons]
        simp only [FCurve.matchKey_update, hq]
        exact ih
      · rw [if_neg hc, List.find?_cons, List.find?_cons]
        by_cases hq : c.matchKey q j = true
        · simp only [hq]
        · rw [Bool.not_eq_true] at hq
          simp only [hq]
          exact ih

/-- Inserting a keyframe makes the channel carry exactly that value at the
inserted frame. -/
theorem FCurve.valueAt_insertKeyframe_self (kps : List (ℚ × ℚ)) (f v : ℚ) :
    FCurve.valueAt (FCurve.insertKeyframe kps f v) f = some v := by
  unfold FCurve.insertKeyframe
  by_cases hany : kps.any (fun p => p.1 = f) = true
  · rw [if_pos hany]
    induction kps with
    | nil => simp at hany
    | cons q qs ih =>
        rw [List.map_cons]
        by_cases hq : q.1 = f
        · rw [if_pos hq, FCurve.valueAt, List.find?_cons]
          simp
        · rw [if_neg hq, FCurve.valueAt, List.find?_cons]
          simp only [hq, decide_False]
          have hany2 : qs.any (fun p => p.1 = f) = true := by
            simp only [List.any_cons, Bool.or_eq_true] at hany
            rcases hany with h1 | h1
            · exact absurd (by simpa using h1) hq
            · exact h1
          exact ih hany2
  · rw [if_neg hany]
    induction kps with
    | nil =>
        rw [List.nil_append, FCurve.valueAt, List.find?_cons]
        simp
    | cons q qs ih =>
        have hq : ¬ q.1 = f := by
          simp only [List.any_cons, Bool.or_eq_true] at hany
          push_neg at hany
          simpa using hany.1
        rw [List.cons_append, FCurve.valueAt, List.find?_cons]
        simp only [hq, decide_False]
        have hany2 : ¬ qs.any (fun p => p.1 = f) = true := by
          simp only [List.any_cons, Bool.or_eq_true] at hany
          push_neg at hany
          simpa using hany.2
        exact ih hany2

/-- Inserting a keyframe leaves the value at every other frame unchanged. -/
theorem FCurve.valueAt_insertKeyframe_other (kps : List (ℚ × ℚ)) (f v g : ℚ)
    (h : g ≠ f) :
    FCurve.valueAt (FCurve.insertKeyframe kps f v) g = FCurve.valueAt kps g := by
  unfold FCurve.insertKeyframe
  by_cases hany : kps.any (fun p => p.1 = f) = true
  · rw [if_pos hany]
    induction kps with
    | nil => rfl
    | cons q qs ih =>
        rw [List.map_cons]
        by_cases hq : q.1 = f
        · have hfg : ¬ (f = g) := fun hc => h hc.symm
          have hqg : ¬ q.1 = g := by rw [hq]; exact hfg
          have hany2 : qs.any (fun p => p.1 = f) = true ∨
              List.map (fun p => if p.1 = f then (f, v) else p) qs = qs := by
            by_cases h2 : qs.any (fun p => p.1 = f) = true
            · exact Or.inl h2
            · refine Or.inr ?_
              have hpt : ∀ x ∈ qs, (if x.1 = f then (f, v) else x) = id x := by
                intro x hx
                rw [if_neg, id]
                intro hxf
                exact h2 (List.any_eq_true.mpr ⟨x, hx, by simpa using hxf⟩)
              rw [List.map_congr_left hpt, List.map_id]
          rw [if_pos hq, FCurve.valueAt, List.find?_cons]
          simp only [hfg, decide_False]
          rw [FCurve.valueAt, List.find?_cons]
          simp only [hqg, decide_False]
          rcases hany2 with h2 | h2
          · exact ih h2
          · rw [h2]
        · rw [if_neg hq]
          have hany2 : qs.any (fun p => p.1 = f) = true := by
            simp only [List.any_cons, Bool.or_eq_true] at hany
            rcases hany with h1 | h1
            · exact absurd (by simpa using h1) hq
            · exact h1
          by_cases hqg : q.1 = g
          · rw [FCurve.valueAt, List.find?_cons]
            simp only [hqg, decide_True]
            rw [FCurve.valueAt, List.find?_cons]
            simp only [hqg, decide_True]
          · rw [FCurve.valueAt, List.find?_cons]
            simp only [hqg, decide_False]
            rw [FCurve.valueAt, List.find?_cons]
            simp only [hqg, decide_False]
            exact ih hany2
  · rw [if_neg hany]
    induction kps with
    | nil =>
        rw [List.nil_append, FCurve.valueAt, List.find?_cons]
        have hfg : ¬ (f = g) := fun hc => h hc.symm
        simp only [hfg, decide_False]
        rfl
    | cons q qs ih =>
        rw [List.cons_append]
        by_cases hqg : q.1 = g
        · rw [FCurve.valueAt, List.find?_cons]
          simp only [hqg, decide_True]
          rw [FCurve.valueAt, List.find?_cons]
          simp only [hqg, decide_True]
        · rw [FCurve.valueAt, List.find?_cons]
          simp only [hqg, decide_False]
          rw [FCurve.valueAt, List.find?_cons]
          simp only [hqg, decide_False]
          have hany2 : ¬ qs.any (fun p => p.1 = f) = true := by
            simp only [List.any_cons, Bool.or_eq_true] at hany
            push_neg at hany
            simpa using hany.2
          exact ih hany2

/-- Specification of the fold of `Glue.perform_hold` over the source
channels: under distinct source channel keys, every source channel key in
the target gets the source channel's last value inserted at the two hold
frames, and every other key is untouched. -/
theorem Glue.holdFold_spec (s e : ℚ) (scs : List FCurve) :
    ∀ (acc res : AnimAction),
      (scs.map FCurve.keyOf).Nodup →
      List.foldlM (Glue.holdStep s e) acc scs = .ok res →
      ((∀ p i, ((p, i) ∉ scs.map FCurve.keyOf) →
          res.lookupKps p i = acc.lookupKps p i) ∧
       (∀ sc ∈ scs, ∃ lastKp kps0,
         sc.keyframe_points.getLast? = some lastKp ∧
         acc.lookupKps sc.data_path sc.array_index = some kps0 ∧
         res.lookupKps sc.data_path sc.array_index =
           some (FCurve.insertKeyframe
             (FCurve.insertKeyframe kps0 s lastKp.2) e lastKp.2))) := by
  induction scs with
  | nil =>
      intro acc res hnd h
      rw [List.foldlM_nil] at h
      rw [show res = acc from (Except.ok.inj h).symm]
      exact ⟨fun p i _ => rfl, fun sc hsc => absurd hsc (List.not_mem_nil sc)⟩
  | cons sc rest ih =>
      intro acc res hnd h
      rw [List.foldlM_cons] at h
      cases hstep : Glue.holdStep s e acc sc with
      | error msg => rw [hstep] at h; exact absurd h (by simp [Bind.bind, Except.bind])
      | ok acc2 =>
          rw [hstep] at h
          have h2 : List.foldlM (Glue.holdStep s e) acc2 rest = .ok res := by
            simpa [Bind.bind, Except.bind] using h
          have hstep2 := hstep
          simp only [Glue.holdStep] at hstep2
          cases hl : sc.keyframe_points.getLast? with
          | none => rw [hl] at hstep2; simp at hstep2
          | some lastKp =>
              rw [hl] at hstep2
              cases hf : acc.fcurvesFind sc.data_path sc.array_index with
              | none => rw [hf] at hstep2; simp at hstep2
              | some tc =>
                  rw [hf] at hstep2
                  simp only [Except.ok.injEq] at hstep2
                  rw [List.map_cons, List.nodup_cons] at hnd
                  obtain ⟨hout, hndrest⟩ := hnd
                  obtain ⟨huntouched, hper⟩ := ih acc2 res hndrest h2
                  have hacckey : acc.lookupKps sc.data_path sc.array_index =
                      some tc.keyframe_points := by
                    simp [AnimAction.lookupKps, hf]
                  have hacc2self : acc2.lookupKps sc.data_path sc.array_index =
                      some (FCurve.insertKeyframe
                        (FCurve.insertKeyframe tc.keyframe_points s lastKp.2) e lastKp.2) := by
                    rw [← hstep2, AnimAction.lookupKps_updateCurve_self, hacckey]
                    rfl
                  constructor
                  · intro p i hpi
                    rw [List.map_cons] at hpi
                    have hpi1 : (p, i) ≠ sc.keyOf := fun hc => hpi (hc ▸ List.mem_cons_self _ _)
                    have hpi2 : (p, i) ∉ rest.map FCurve.keyOf :=
                      fun hc => hpi (List.mem_cons_of_mem _ hc)
                    rw [huntouched p i hpi2, ← hstep2,
                      AnimAction.lookupKps_updateCurve_other]
                    intro hc
                    exact hpi1 (by simp [FCurve.keyOf, hc.1, hc.2])
                  · intro sc2 hsc2
                    rcases List.mem_cons.mp hsc2 with hsc2 | hsc2
                    · rw [hsc2]
                      refine ⟨lastKp, tc.keyframe_points, hl, hacckey, ?_⟩
                      rw [huntouched sc.data_path sc.array_index
                        (fun hc => hout (by simpa [FCurve.keyOf] using hc))]
                      exact hacc2self
                    · obtain ⟨l2, k2, hgl, hlook2, hres2⟩ := hper sc2 hsc2
                      refine ⟨l2, k2, hgl, ?_, hres2⟩
                      rw [← hlook2, ← hstep2,
                        AnimAction.lookupKps_updateCurve_other]
                      intro hc
                      exact hout (by
                        have : sc2.keyOf = sc.keyOf := by
                          simp [FCurve.keyOf, hc.1, hc.2]
                        rw [← this]
                        exact List.mem_map_of_mem FCurve.keyOf hsc2)

/-- C6: when `perform_hold` succeeds on source channels with distinct keys,
it returns `end` as the resulting frame and, for every source channel,
inserts exactly two samples into the matching target channel — one at frame
`start`, one at frame `end`, both carrying the value of the source channel's
last recorded keyframe; the held value at `start` equals the held value at
`end` equals that last source value, and the target channel is unchanged at
every other frame. -/
theorem claim_C6 (target source : AnimAction) (s e : ℚ) (out : AnimAction × ℚ)
    (hnd : (source.fcurves.map FCurve.keyOf).Nodup)
    (h : Glue.perform_hold target source s e = .ok out) :
    out.2 = e ∧
    ∀ sc ∈ source.fcurves, ∃ lastKp kps0,
      sc.keyframe_points.getLast? = some lastKp ∧
      target.lookupKps sc.data_path sc.array_index = some kps0 ∧
      out.1.lookupKps sc.data_path sc.array_index =
        some (FCurve.insertKeyframe
          (FCurve.insertKeyframe kps0 s lastKp.2) e lastKp.2) ∧
      FCurve.valueAt (FCurve.insertKeyframe
        (FCurve.insertKeyframe kps0 s lastKp.2) e lastKp.2) s = some lastKp.2 ∧
      FCurve.valueAt (FCurve.insertKeyframe
        (FCurve.insertKeyframe kps0 s lastKp.2) e lastKp.2) e = some lastKp.2 ∧
      ∀ f, f ≠ s → f ≠ e →
        FCurve.valueAt (FCurve.insertKeyframe
          (FCurve.insertKeyframe kps0 s lastKp.2) e lastKp.2) f =
          FCurve.valueAt kps0 f := by
  rw [Glue.perform_hold] at h
  cases hfold : List.foldlM (Glue.holdStep s e) target source.fcurves with
  | error msg => rw [hfold] at h; simp at h
  | ok t =>
      rw [hfold] at h
      simp only [Except.ok.injEq] at h
      obtain ⟨-, hper⟩ := Glue.holdFold_spec s e source.fcurves target t hnd hfold
      refine ⟨by rw [← h], ?_⟩
      intro sc hsc
      obtain ⟨lastKp, kps0, hgl, hlook, hres⟩ := hper sc hsc
      refine ⟨lastKp, kps0, hgl, hlook, by rw [← h]; exact hres, ?_, ?_, ?_⟩
      · by_cases hse : s = e
        · rw [hse, FCurve.valueAt_insertKeyframe_self]
        · rw [FCurve.valueAt_insertKeyframe_other _ _ _ _ hse,
            FCurve.valueAt_insertKeyframe_self]
      · rw [FCurve.valueAt_insertKeyframe_self]
      · intro f hfs hfe
        rw [FCurve.valueAt_insertKeyframe_other _ _ _ _ hfe,
          FCurve.valueAt_insertKeyframe_other _ _ _ _ hfs]

/-- C6 witness: holding over `[10, 20]` from a source channel whose last
keyframe is `(3, 7)` writes value 7 at both frame 10 and frame 20 of the
target channel, leaving its other keyframes alone. -/
theorem claim_C6_witness :
    FCurve.valueAt [((1 : ℚ), (5 : ℚ)), (10, 7), (20, 7)] 10 = some 7 ∧
    FCurve.valueAt [((1 : ℚ), (5 : ℚ)), (10, 7), (20, 7)] 20 = some 7 ∧
    FCurve.valueAt [((1 : ℚ), (5 : ℚ)), (10, 7), (20, 7)] 1 =
      FCurve.valueAt [((1 : ℚ), (5 : ℚ))] 1 := by
  have h := claim_C6 ⟨[⟨"p", 0, [(1, 5)]⟩]⟩ ⟨[⟨"p", 0, [(1, 2), (3, 7)]⟩]⟩ 10 20
      (⟨[⟨"p", 0, [(1, 5), (10, 7), (20, 7)]⟩]⟩, 20)
      (by simp [FCurve.keyOf]) rfl
  obtain ⟨-, hper⟩ := h
  obtain ⟨lastKp, kps0, hgl, hlook, hres, hs, he, hother⟩ :=
    hper ⟨"p", 0, [(1, 2), (3, 7)]⟩ (by simp)
  have hlk : lastKp = ((3 : ℚ), (7 : ℚ)) := by
    have h2 : some ((3 : ℚ), (7 : ℚ)) = some lastKp := by
      rw [← hgl]
      exact rfl
    exact (Option.some.inj h2).symm
  have hk0 : kps0 = [((1 : ℚ), (5 : ℚ))] := by
    have h2 : some [((1 : ℚ), (5 : ℚ))] = some kps0 := by
      rw [← hlook]
      exact rfl
    exact (Option.some.inj h2).symm
  rw [hlk, hk0] at hs he hother
  refine ⟨?_, ?_, ?_⟩
  · rw [show ([((1 : ℚ), (5 : ℚ)), (10, 7), (20, 7)] : List (ℚ × ℚ)) =
        FCurve.insertKeyframe (FCurve.insertKeyframe [((1 : ℚ), (5 : ℚ))] 10
          ((3 : ℚ), (7 : ℚ)).2) 20 ((3 : ℚ), (7 : ℚ)).2 from rfl]
    exact hs
  · rw [show ([((1 : ℚ), (5 : ℚ)), (10, 7), (20, 7)] : List (ℚ × ℚ)) =
        FCurve.insertKeyframe (FCurve.insertKeyframe [((1 : ℚ), (5 : ℚ))] 10
          ((3 : ℚ), (7 : ℚ)).2) 20 ((3 : ℚ), (7 : ℚ)).2 from rfl]
    exact he
  · rw [show ([((1 : ℚ), (5 : ℚ)), (10, 7), (20, 7)] : List (ℚ × ℚ)) =
        FCurve.insertKeyframe (FCurve.insertKeyframe [((1 : ℚ), (5 : ℚ))] 10
          ((3 : ℚ), (7 : ℚ)).2) 20 ((3 : ℚ), (7 : ℚ)).2 from rfl]
    exact hother 1 (by norm_num) (by norm_num)

/-! ## Claim C7: merge tolerance assertion -/

/-- C7: when a merge iteration's branch (combine or hold) returns end frame
`endFrame` against expected end `endExpected`, the step succeeds exactly
when `abs (endFrame - endExpected) <= 1`, aborts with the fatal assertion
otherwise, and on success stores the expected end unchanged (the deviation
is never corrected).  The hold branch always returns the expected end
itself, so its assertion is trivially satisfied. -/
theorem claim_C7 (glosses : List MergeGloss) (useRelTime : Bool) (st : MergeState)
    (g : MergeGloss) (f : AnimAction) (endExpected endFrame : ℚ)
    (hp : g.pathExists = true)
    (hraw : Glue.mergeStepRaw glosses useRelTime st g = .ok (f, endExpected, endFrame)) :
    (|endFrame - endExpected| ≤ 1 →
      Glue.mergeStep glosses useRelTime st g = .ok ⟨endExpected, f⟩) ∧
    (¬ |endFrame - endExpected| ≤ 1 →
      Glue.mergeStep glosses useRelTime st g =
        .error "AssertionError: end and end_frame are not compatible") ∧
    (∀ st2, Glue.mergeStep glosses useRelTime st g = .ok st2 →
      |endFrame - endExpected| ≤ 1 ∧ st2 = ⟨endExpected, f⟩) ∧
    (∀ (t src : AnimAction) (a b : ℚ) (out : AnimAction × ℚ),
      Glue.perform_hold t src a b = .ok out → out.2 = b) := by
  have hiff : (endExpected - 1 ≤ endFrame ∧ endFrame ≤ endExpected + 1) ↔
      |endFrame - endExpected| ≤ 1 := by
    rw [abs_le]
    constructor
    · intro hh; constructor <;> linarith [hh.1, hh.2]
    · intro hh; constructor <;> linarith [hh.1, hh.2]
  have hstep : Glue.mergeStep glosses useRelTime st g =
      if endExpected - 1 ≤ endFrame ∧ endFrame ≤ endExpected + 1 then
        .ok ⟨endExpected, f⟩
      else .error "AssertionError: end and end_frame are not compatible" := by
    unfold Glue.mergeStep
    rw [if_neg (by simp [hp]), hraw]
  refine ⟨?_, ?_, ?_, ?_⟩
  · intro habs
    rw [hstep, if_pos (hiff.mpr habs)]
  · intro habs
    rw [hstep, if_neg (fun hc => habs (hiff.mp hc))]
  · intro st2 hok
    rw [hstep] at hok
    by_cases hc : endExpected - 1 ≤ endFrame ∧ endFrame ≤ endExpected + 1
    · rw [if_pos hc] at hok
      exact ⟨hiff.mp hc, (Except.ok.inj hok).symm⟩
    · rw [if_neg hc] at hok
      exact absurd hok (by simp)
  · intro t src a b out hout
    rw [Glue.perform_hold] at hout
    cases hfold : List.foldlM (Glue.holdStep a b) t src.fcurves with
    | error msg => rw [hfold] at hout; exact absurd hout (by simp)
    | ok t2 =>
        rw [hfold] at hout
        rw [← Except.ok.inj hout]

/-- C7 witness: a gloss timed at seconds `[0, 1/4)` (timeline frames 1 to
16) whose baked animation ends at frame 15 merges with returned end frame
`15 + 1 = 16`; the deviation is 0, the assertion passes and the state stores
the expected end 16. -/
theorem claim_C7_witness :
    Glue.mergeStep [] false ⟨1, ⟨[⟨"p", 0, []⟩]⟩⟩
      ⟨0, "A", "signs", 0, 1 / 4, 0, .plain 0, (0, 0),
        ⟨[⟨"p", 0, [(1, 2), (15, 3)]⟩]⟩, true⟩ =
      .ok ⟨16, ⟨[⟨"p", 0, [(1, 2), (15, 3)]⟩]⟩⟩ := by
  have hraw : Glue.mergeStepRaw [] false ⟨1, ⟨[⟨"p", 0, []⟩]⟩⟩
      ⟨0, "A", "signs", 0, 1 / 4, 0, .plain 0, (0, 0),
        ⟨[⟨"p", 0, [(1, 2), (15, 3)]⟩]⟩, true⟩ =
      .ok (⟨[⟨"p", 0, [(1, 2), (15, 3)]⟩]⟩, 16, 16) := by
    have hfl : ⌊(1 / 4 : ℚ) * 60⌋ = 15 := by
      rw [show (1 / 4 : ℚ) * 60 = ((15 : ℤ) : ℚ) by norm_num, Int.floor_intCast]
    have hcl : ⌈(0 : ℚ) * 60⌉ = 0 := by
      rw [zero_mul, Int.ceil_zero]
    simp [Glue.mergeStepRaw, MMSLine.timing, hfl, hcl, Glue.combine_animation,
      Glue.combineStep, AnimAction.frameEnd, pyInt, AnimAction.fcurvesFind,
      FCurve.matchKey, AnimAction.updateCurve, FCurve.insertKeyframe,
      except_pure_def]
    norm_num
    rfl
  have h := claim_C7 [] false ⟨1, ⟨[⟨"p", 0, []⟩]⟩⟩
      ⟨0, "A", "signs", 0, 1 / 4, 0, .plain 0, (0, 0),
        ⟨[⟨"p", 0, [(1, 2), (15, 3)]⟩]⟩, true⟩
      ⟨[⟨"p", 0, [(1, 2), (15, 3)]⟩]⟩ 16 16 rfl hraw
  exact h.1 (by norm_num)

/-! ## Claim C8: HOLD source selection -/

/-- C8 counterexample: the merge selects the HOLD source by indexing the
time-sorted glosses list with the entry's original parse index minus one,
not with its position in iteration order.  For the time-sorted table
`[B (parse index 2, seconds 0), A (parse index 0, seconds 1),
HOLD (parse index 1, seconds 1.5)]` the HOLD entry sits at iteration
position 2, so the claim demands source `A` (the entry at position 1), but
the code computes `glosses[1 - 1] = B`. -/
theorem claim_C8_counterexample :
    Glue.holdSourceGloss
      [⟨2, "B", "signs", 0, 1, 0, .plain 0, (0, 0), ⟨[]⟩, true⟩,
       ⟨0, "A", "signs", 1, 2, 0, .plain 0, (0, 0), ⟨[]⟩, true⟩,
       ⟨1, "H", "HOLD", 3 / 2, 2, 0, .plain 0, (0, 0), ⟨[]⟩, true⟩]
      ⟨1, "H", "HOLD", 3 / 2, 2, 0, .plain 0, (0, 0), ⟨[]⟩, true⟩ =
      some ⟨2, "B", "signs", 0, 1, 0, .plain 0, (0, 0), ⟨[]⟩, true⟩ ∧
    ¬ Glue.holdSourceGloss
      [⟨2, "B", "signs", 0, 1, 0, .plain 0, (0, 0), ⟨[]⟩, true⟩,
       ⟨0, "A", "signs", 1, 2, 0, .plain 0, (0, 0), ⟨[]⟩, true⟩,
       ⟨1, "H", "HOLD", 3 / 2, 2, 0, .plain 0, (0, 0), ⟨[]⟩, true⟩]
      ⟨1, "H", "HOLD", 3 / 2, 2, 0, .plain 0, (0, 0), ⟨[]⟩, true⟩ =
      [⟨2, "B", "signs", 0, 1, 0, .plain 0, (0, 0), ⟨[]⟩, true⟩,
       ⟨0, "A", "signs", 1, 2, 0, .plain 0, (0, 0), ⟨[]⟩, true⟩,
       ⟨1, "H", "HOLD", 3 / 2, 2, 0, .plain 0, (0, 0), ⟨[]⟩, true⟩].get? (2 - 1) := by
  refine ⟨rfl, ?_⟩
  intro hc
  rw [show Glue.holdSourceGloss
      [⟨2, "B", "signs", 0, 1, 0, .plain 0, (0, 0), ⟨[]⟩, true⟩,
       ⟨0, "A", "signs", 1, 2, 0, .plain 0, (0, 0), ⟨[]⟩, true⟩,
       ⟨1, "H", "HOLD", 3 / 2, 2, 0, .plain 0, (0, 0), ⟨[]⟩, true⟩]
      ⟨1, "H", "HOLD", 3 / 2, 2, 0, .plain 0, (0, 0), ⟨[]⟩, true⟩ =
      some ⟨2, "B", "signs", 0, 1, 0, .plain 0, (0, 0), ⟨[]⟩, true⟩ from rfl] at hc
  rw [show ([⟨2, "B", "signs", 0, 1, 0, .plain 0, (0, 0), ⟨[]⟩, true⟩,
       ⟨0, "A", "signs", 1, 2, 0, .plain 0, (0, 0), ⟨[]⟩, true⟩,
       ⟨1, "H", "HOLD", 3 / 2, 2, 0, .plain 0, (0, 0), ⟨[]⟩, true⟩] :
       List MergeGloss).get? (2 - 1) =
      some ⟨0, "A", "signs", 1, 2, 0, .plain 0, (0, 0), ⟨[]⟩, true⟩ from rfl] at hc
  have h2 := congrArg MergeGloss.seqIdx (Option.some.inj hc)
  norm_num at h2

/-- C8 amended: the HOLD source is the entry at Python index
`seqIdx - 1` of the time-sorted glosses list, where `seqIdx` is the entry's
original parse sequence index.  When the parse order already coincides with
the ascending timing order (every entry's sequence index equals its
position), this is exactly the immediately preceding entry in iteration
order, as the claim states. -/
theorem claim_C8_amended (glosses : List MergeGloss) (p : ℕ) (hp : p < glosses.length)
    (hidx : ∀ i, ∀ h : i < glosses.length, (glosses.get ⟨i, h⟩).seqIdx = i)
    (hp0 : 0 < p) :
    Glue.holdSourceGloss glosses (glosses.get ⟨p, hp⟩) = glosses.get? (p - 1) := by
  unfold Glue.holdSourceGloss pyGet
  rw [hidx p hp]
  rw [if_pos (by omega : (0 : ℤ) ≤ (p : ℤ) - 1)]
  congr 1
  omega

/-- C8 witness: in a two-entry table whose parse order equals its timing
order, the HOLD at position 1 takes the entry at position 0 as source. -/
theorem claim_C8_witness :
    Glue.holdSourceGloss
      [⟨0, "A", "signs", 0, 1, 0, .plain 0, (0, 0), ⟨[]⟩, true⟩,
       ⟨1, "H", "HOLD", 1, 2, 0, .plain 0, (0, 0), ⟨[]⟩, true⟩]
      ([⟨0, "A", "signs", 0, 1, 0, .plain 0, (0, 0), ⟨[]⟩, true⟩,
        ⟨1, "H", "HOLD", 1, 2, 0, .plain 0, (0, 0), ⟨[]⟩, true⟩].get
          ⟨1, by norm_num⟩) =
      [⟨0, "A", "signs", 0, 1, 0, .plain 0, (0, 0), ⟨[]⟩, true⟩,
       ⟨1, "H", "HOLD", 1, 2, 0, .plain 0, (0, 0), ⟨[]⟩, true⟩].get? (1 - 1) := by
  refine claim_C8_amended _ 1 (by norm_num) ?_ (by norm_num)
  intro i h
  match i with
  | 0 => rfl
  | 1 => rfl

/-! ## Claim C9: mocap path resolution -/

/-- Generalized specification of the `find_mocap_data_files` loop: under any
starting value of the `gloss_path` local variable, a successful pass leaves
every non-HOLD entry with its composed (and existing) asset path, and every
HOLD entry with datatype HOLD and the path of the nearest preceding non-HOLD
entry (or the starting variable value when there is none). -/
theorem MMS.findMocapGo_spec (root : String) (pathPresent : String → Bool) :
    ∀ (l : List ParsedGloss) (stale : Option String) (out : List ParsedGloss),
      MMS.findMocapGo root pathPresent stale l = .ok out →
      out.length = l.length ∧
      ∀ i g og, l.get? i = some g → out.get? i = some og →
        (g.isHold = true →
          og.datatype = "HOLD" ∧ og.name = g.name ∧
          some og.path =
            (match ((l.take i).filter fun x => ¬ x.isHold).getLast? with
             | some g2 => some (g2.assetPath root)
             | none => stale)) ∧
        (g.isHold = false →
          og.path = g.assetPath root ∧ og.name = g.name ∧
          og.datatype = g.datatype ∧
          pathPresent (g.assetPath root) = true) := by
  intro l
  induction l with
  | nil =>
      intro stale out h
      simp only [MMS.findMocapGo, Except.ok.injEq] at h
      rw [← h]
      exact ⟨rfl, fun i g og hg _ => by simp at hg⟩
  | cons g0 rest ih =>
      intro stale out h
      by_cases hh : g0.isHold = true
      · cases hst : stale with
        | none =>
            rw [hst] at h
            simp only [MMS.findMocapGo, if_pos hh] at h
            exact absurd h (by simp)
        | some p =>
            rw [hst] at h
            simp only [MMS.findMocapGo, if_pos hh] at h
            cases hrec : MMS.findMocapGo root pathPresent (some p) rest with
            | error e => rw [hrec] at h; simp at h
            | ok out2 =>
                rw [hrec] at h
                simp only [Except.ok.injEq] at h
                obtain ⟨hlen2, hspec2⟩ := ih (some p) out2 hrec
                rw [← h]
                refine ⟨by simp [hlen2], ?_⟩
                intro i g og hg hog
                cases i with
                | zero =>
                    simp only [List.get?_cons_zero, Option.some.injEq] at hg hog
                    constructor
                    · intro _
                      rw [← hog]
                      exact ⟨rfl, by rw [← hg], rfl⟩
                    · intro hgf
                      rw [← hg] at hgf
                      rw [hgf] at hh
                      exact absurd hh (by simp)
                | succ i =>
                    simp only [List.get?_cons_succ] at hg hog
                    have hstep := hspec2 i g og hg hog
                    constructor
                    · intro hgt
                      have h3 := hstep.1 hgt
                      refine ⟨h3.1, h3.2.1, ?_⟩
                      rw [h3.2.2]
                      have hfe : ((g0 :: rest).take (i + 1)).filter
                          (fun x => ¬ x.isHold) =
                          (rest.take i).filter (fun x => ¬ x.isHold) := by
                        rw [List.take_succ_cons, List.filter_cons]
                        simp [hh]
                      rw [hfe]
                    · exact hstep.2
      · have hhf : g0.isHold = false := by
          rw [Bool.not_eq_true] at hh
          exact hh
        cases hex : pathPresent (g0.assetPath root) with
        | false =>
            simp only [MMS.findMocapGo, if_neg hh, ParsedGloss.assetPath] at h
            rw [show root ++ "/" ++ g0.datatype ++ "/trimmed/" ++ g0.name ++ ".blend" =
              g0.assetPath root from rfl, hex] at h
            simp at h
        | true =>
            simp only [MMS.findMocapGo, if_neg hh, ParsedGloss.assetPath] at h
            rw [show root ++ "/" ++ g0.datatype ++ "/trimmed/" ++ g0.name ++ ".blend" =
              g0.assetPath root from rfl, hex] at h
            simp only [if_true] at h
            cases hrec : MMS.findMocapGo root pathPresent
                (some (g0.assetPath root)) rest with
            | error e => rw [hrec] at h; simp at h
            | ok out2 =>
                rw [hrec] at h
                simp only [Except.ok.injEq] at h
                obtain ⟨hlen2, hspec2⟩ := ih (some (g0.assetPath root)) out2 hrec
                rw [← h]
                refine ⟨by simp [hlen2], ?_⟩
                intro i g og hg hog
                cases i with
                | zero =>
                    simp only [List.get?_cons_zero, Option.some.injEq] at hg hog
                    constructor
                    · intro hgt
                      rw [← hg] at hgt
                      rw [hgt] at hhf
                      exact absurd hhf (by simp)
                    · intro _
                      rw [← hog, ← hg]
                      exact ⟨rfl, rfl, rfl, hex⟩
                | succ i =>
                    simp only [List.get?_cons_succ] at hg hog
                    have hstep := hspec2 i g og hg hog
                    constructor
                    · intro hgt
                      have h3 := hstep.1 hgt
                      refine ⟨h3.1, h3.2.1, ?_⟩
                      rw [h3.2.2]
                      have hfe : ((g0 :: rest).take (i + 1)).filter
                          (fun x => ¬ x.isHold) =
                          g0 :: (rest.take i).filter (fun x => ¬ x.isHold) := by
                        rw [List.take_succ_cons, List.filter_cons]
                        simp [hh]
                      rw [hfe]
                      cases hrf : (rest.take i).filter (fun x => ¬ x.isHold) with
                      | nil => simp
                      | cons y ys =>
                          rw [List.getLast?_cons_cons]
                          cases hyl : (y :: ys).getLast? with
                          | none =>
                              rw [List.getLast?_eq_none_iff] at hyl
                              exact absurd hyl (by simp)
                          | some gl => rfl
                    · exact hstep.2

/-- C9: over a table whose first time-ordered entry is not a HOLD, a
successful path-resolution pass gives every HOLD entry datatype HOLD and the
asset path of the immediately preceding non-HOLD entry, and gives every
non-HOLD entry the composed path `root/<category>/trimmed/<name>.blend`,
which the existence test accepted; and if any non-HOLD entry's composed path
does not exist, the pass aborts with an error. -/
theorem claim_C9 (root : String) (pathPresent : String → Bool)
    (l : List ParsedGloss)
    (hfirst : ∀ g, l.head? = some g → g.isHold = false) :
    (∀ out, MMS.find_mocap_data_files root pathPresent l = .ok out →
      out.length = l.length ∧
      ∀ i g og, l.get? i = some g → out.get? i = some og →
        (g.isHold = true →
          og.datatype = "HOLD" ∧ some og.path = MMS.prevNonHoldPath root l i) ∧
        (g.isHold = false →
          og.path = g.assetPath root ∧ pathPresent (g.assetPath root) = true)) ∧
    ((∃ i g, l.get? i = some g ∧ g.isHold = false ∧
        pathPresent (g.assetPath root) = false) →
      ∃ msg, MMS.find_mocap_data_files root pathPresent l = .error msg) := by
  constructor
  · intro out h
    obtain ⟨hlen, hspec⟩ := MMS.findMocapGo_spec root pathPresent l none out h
    refine ⟨hlen, ?_⟩
    intro i g og hg hog
    have hstep := hspec i g og hg hog
    refine ⟨?_, fun hf => ⟨(hstep.2 hf).1, (hstep.2 hf).2.2.2⟩⟩
    intro ht
    obtain ⟨h1, h2, h3⟩ := hstep.1 ht
    refine ⟨h1, ?_⟩
    rw [h3, MMS.prevNonHoldPath]
    cases hgl : ((l.take i).filter fun x => ¬ x.isHold).getLast? with
    | none => rfl
    | some g2 => rfl
  · rintro ⟨i, g, hg, hf, hnp⟩
    cases hres : MMS.find_mocap_data_files root pathPresent l with
    | error msg => exact ⟨msg, rfl⟩
    | ok out =>
        obtain ⟨hlen, hspec⟩ := MMS.findMocapGo_spec root pathPresent l none out hres
        have hi : i < l.length := by
          by_contra hlt
          rw [List.get?_eq_none.mpr (le_of_not_lt hlt)] at hg
          exact absurd hg (by simp)
        obtain ⟨og, hog⟩ : ∃ og, out.get? i = some og := by
          cases hogc : out.get? i with
          | none =>
              rw [List.get?_eq_none] at hogc
              rw [hlen] at hogc
              exact absurd hogc (by omega)
          | some og => exact ⟨og, rfl⟩
        have hcontr := (hspec i g og hg hog).2 hf
        rw [hcontr.2.2.2] at hnp
        exact absurd hnp (by simp)

/-- C9 witness: a two-entry table (a sign A then a HOLD) resolved with an
always-existing filesystem: the HOLD entry ends with datatype HOLD and the
path of the preceding non-HOLD entry A. -/
theorem claim_C9_witness :
    ({ name := "<HOLD>", datatype := "HOLD",
       path := "root/signs/trimmed/A.blend" } : ParsedGloss).datatype = "HOLD" ∧
    some ({ name := "<HOLD>", datatype := "HOLD",
            path := "root/signs/trimmed/A.blend" } : ParsedGloss).path =
      MMS.prevNonHoldPath "root"
        [⟨"A", "signs", "/none"⟩, ⟨"<HOLD>", "signs", "/none"⟩] 1 := by
  have h := (claim_C9 "root" (fun _ => true)
      [⟨"A", "signs", "/none"⟩, ⟨"<HOLD>", "signs", "/none"⟩]
      (fun g hg => by rw [← Option.some.inj hg]; rfl)).1
      [⟨"A", "signs", "root/signs/trimmed/A.blend"⟩,
       ⟨"<HOLD>", "HOLD", "root/signs/trimmed/A.blend"⟩] rfl
  exact (h.2 1 ⟨"<HOLD>", "signs", "/none"⟩
      ⟨"<HOLD>", "HOLD", "root/signs/trimmed/A.blend"⟩ rfl rfl).1 rfl

/-! ## Claim C10: merge channel-lookup precondition -/

/-- Updating a curve's keyframe list never changes which keys are present. -/
theorem AnimAction.lookupKps_updateCurve_isSome (a : AnimAction) (p : String)
    (i : ℕ) (kps : List (ℚ × ℚ)) (q : String) (j : ℕ) :
    ((a.updateCurve p i kps).lookupKps q j).isSome = (a.lookupKps q j).isSome := by
  by_cases h : q = p ∧ j = i
  · obtain ⟨h1, h2⟩ := h
    rw [h1, h2, AnimAction.lookupKps_updateCurve_self]
    cases a.lookupKps p i <;> rfl
  · rw [AnimAction.lookupKps_updateCurve_other _ _ _ _ _ _ h]

/-- A successful combine fold requires every source key present in the
accumulator. -/
theorem Glue.combineFold_lookup_of_ok (start : ℚ) (scs : List FCurve) :
    ∀ (acc res : AnimAction),
      List.foldlM (Glue.combineStep start) acc scs = .ok res →
      ∀ sc ∈ scs, (acc.lookupKps sc.data_path sc.array_index).isSome = true := by
  induction scs with
  | nil => intro acc res _ sc hsc; exact absurd hsc (List.not_mem_nil sc)
  | cons sc0 rest ih =>
      intro acc res h sc hsc
      rw [List.foldlM_cons] at h
      cases hstep : Glue.combineStep start acc sc0 with
      | error msg => rw [hstep] at h; exact absurd h (by simp [Bind.bind, Except.bind])
      | ok acc2 =>
          rw [hstep] at h
          have h2 : List.foldlM (Glue.combineStep start) acc2 rest = .ok res := by
            simpa [Bind.bind, Except.bind] using h
          have hstep2 := hstep
          rw [Glue.combineStep] at hstep2
          cases hf : acc.fcurvesFind sc0.data_path sc0.array_index with
          | none => rw [hf] at hstep2; exact absurd hstep2 (by simp)
          | some tc =>
              rw [hf] at hstep2
              simp only [Except.ok.injEq] at hstep2
              rcases List.mem_cons.mp hsc with hh | hh
              · rw [hh, AnimAction.lookupKps]
                rw [hf]
                rfl
              · have h3 := ih acc2 res h2 sc hh
                rw [← hstep2, AnimAction.lookupKps_updateCurve_isSome] at h3
                exact h3

/-- The combine fold succeeds whenever every source key is present in the
accumulator. -/
theorem Glue.combineFold_ok_of (start : ℚ) (scs : List FCurve) :
    ∀ (acc : AnimAction),
      (∀ sc ∈ scs, (acc.lookupKps sc.data_path sc.array_index).isSome = true) →
      ∃ res, List.foldlM (Glue.combineStep start) acc scs = .ok res := by
  induction scs with
  | nil => intro acc _; exact ⟨acc, by rw [List.foldlM_nil]; rfl⟩
  | cons sc0 rest ih =>
      intro acc hall
      have hs0 := hall sc0 (List.mem_cons_self _ _)
      rw [AnimAction.lookupKps] at hs0
      cases hf : acc.fcurvesFind sc0.data_path sc0.array_index with
      | none => rw [hf] at hs0; exact absurd hs0 (by simp)
      | some tc =>
          obtain ⟨res, hres⟩ := ih
            (acc.updateCurve sc0.data_path sc0.array_index
              (sc0.keyframe_points.foldl
                (fun kps p => FCurve.insertKeyframe kps (p.1 + start - 1) p.2)
                tc.keyframe_points))
            (by
              intro sc hsc
              rw [AnimAction.lookupKps_updateCurve_isSome]
              exact hall sc (List.mem_cons_of_mem _ hsc))
          refine ⟨res, ?_⟩
          rw [List.foldlM_cons, show Glue.combineStep start acc sc0 =
            .ok (acc.updateCurve sc0.data_path sc0.array_index
              (sc0.keyframe_points.foldl
                (fun kps p => FCurve.insertKeyframe kps (p.1 + start - 1) p.2)
                tc.keyframe_points)) by rw [Glue.combineStep, hf]]
          simpa [Bind.bind, Except.bind] using hres

/-- A successful hold fold requires every source channel nonempty and every
source key present in the accumulator. -/
theorem Glue.holdFold_lookup_of_ok (s e : ℚ) (scs : List FCurve) :
    ∀ (acc res : AnimAction),
      List.foldlM (Glue.holdStep s e) acc scs = .ok res →
      ∀ sc ∈ scs, (acc.lookupKps sc.data_path sc.array_index).isSome = true ∧
        sc.keyframe_points ≠ [] := by
  induction scs with
  | nil => intro acc res _ sc hsc; exact absurd hsc (List.not_mem_nil sc)
  | cons sc0 rest ih =>
      intro acc res h sc hsc
      rw [List.foldlM_cons] at h
      cases hstep : Glue.holdStep s e acc sc0 with
      | error msg => rw [hstep] at h; exact absurd h (by simp [Bind.bind, Except.bind])
      | ok acc2 =>
          rw [hstep] at h
          have h2 : List.foldlM (Glue.holdStep s e) acc2 rest = .ok res := by
            simpa [Bind.bind, Except.bind] using h
          have hstep2 := hstep
          simp only [Glue.holdStep] at hstep2
          cases hl : sc0.keyframe_points.getLast? with
          | none => rw [hl] at hstep2; exact absurd hstep2 (by simp)
          | some lastKp =>
              rw [hl] at hstep2
              cases hf : acc.fcurvesFind sc0.data_path sc0.array_index with
              | none => rw [hf] at hstep2; exact absurd hstep2 (by simp)
              | some tc =>
                  rw [hf] at hstep2
                  simp only [Except.ok.injEq] at hstep2
                  rcases List.mem_cons.mp hsc with hh | hh
                  · rw [hh]
                    refine ⟨by rw [AnimAction.lookupKps, hf]; rfl, ?_⟩
                    intro hc
                    rw [hc] at hl
                    exact absurd hl (by simp)
                  · have h3 := ih acc2 res h2 sc hh
                    rw [← hstep2, AnimAction.lookupKps_updateCurve_isSome] at h3
                    exact h3

/-- The hold fold succeeds whenever every source channel is nonempty and its
key is present in the accumulator. -/
theorem Glue.holdFold_ok_of (s e : ℚ) (scs : List FCurve) :
    ∀ (acc : AnimAction),
      (∀ sc ∈ scs, (acc.lookupKps sc.data_path sc.array_index).isSome = true ∧
        sc.keyframe_points ≠ []) →
      ∃ res, List.foldlM (Glue.holdStep s e) acc scs = .ok res := by
  induction scs with
  | nil => intro acc _; exact ⟨acc, by rw [List.foldlM_nil]; rfl⟩
  | cons sc0 rest ih =>
      intro acc hall
      obtain ⟨hs0, hne0⟩ := hall sc0 (List.mem_cons_self _ _)
      rw [AnimAction.lookupKps] at hs0
      cases hf : acc.fcurvesFind sc0.data_path sc0.array_index with
      | none => rw [hf] at hs0; exact absurd hs0 (by simp)
      | some tc =>
          cases hl : sc0.keyframe_points.getLast? with
          | none =>
              rw [List.getLast?_eq_none_iff] at hl
              exact absurd hl hne0
          | some lastKp =>
              obtain ⟨res, hres⟩ := ih
                (acc.updateCurve sc0.data_path sc0.array_index
                  (FCurve.insertKeyframe
                    (FCurve.insertKeyframe tc.keyframe_points s lastKp.2) e lastKp.2))
                (by
                  intro sc hsc
                  rw [AnimAction.lookupKps_updateCurve_isSome]
                  exact hall sc (List.mem_cons_of_mem _ hsc))
              refine ⟨res, ?_⟩
              rw [List.foldlM_cons, show Glue.holdStep s e acc sc0 =
                .ok (acc.updateCurve sc0.data_path sc0.array_index
                  (FCurve.insertKeyframe
                    (FCurve.insertKeyframe tc.keyframe_points s lastKp.2) e lastKp.2)) by
                simp only [Glue.holdStep, hl, hf]]
              simpa [Bind.bind, Except.bind] using hres

/-- C10: the merge stage's channel lookups establish an implicit
precondition.  `combine_animation` succeeds exactly when every source
channel's (data path, array index) key already has a matching channel in the
target action, and `perform_hold` when additionally every source channel is
nonempty; a missing key makes either function raise (the `None` lookup is
dereferenced unchecked).  `create_new_fcurves` establishes the precondition
by giving the target exactly the channel keys of the reference action — the
first inflected gloss — with empty keyframe lists, so a source gloss with a
channel key not present in that first gloss violates the precondition. -/
theorem claim_C10 (target source ref : AnimAction) (start s e : ℚ) :
    ((∀ sc ∈ source.fcurves,
        (target.lookupKps sc.data_path sc.array_index).isSome = true) →
      ∃ res, Glue.combine_animation target source start = .ok res) ∧
    (∀ res, Glue.combine_animation target source start = .ok res →
      ∀ sc ∈ source.fcurves,
        (target.lookupKps sc.data_path sc.array_index).isSome = true) ∧
    ((∃ sc ∈ source.fcurves,
        target.lookupKps sc.data_path sc.array_index = none) →
      ∃ msg, Glue.combine_animation target source start = .error msg) ∧
    ((∀ sc ∈ source.fcurves,
        (target.lookupKps sc.data_path sc.array_index).isSome = true ∧
        sc.keyframe_points ≠ []) →
      ∃ res, Glue.perform_hold target source s e = .ok res) ∧
    (∀ res, Glue.perform_hold target source s e = .ok res →
      ∀ sc ∈ source.fcurves,
        (target.lookupKps sc.data_path sc.array_index).isSome = true) ∧
    ((∃ sc ∈ source.fcurves,
        target.lookupKps sc.data_path sc.array_index = none) →
      ∃ msg, Glue.perform_hold target source s e = .error msg) ∧
    (∀ t, Glue.create_new_fcurves ref = .ok t →
      t.fcurves.map FCurve.keyOf = ref.fcurves.map FCurve.keyOf ∧
      ∀ c ∈ t.fcurves, c.keyframe_points = []) ∧
    (ref.fcurves = [] → ∃ msg, Glue.create_new_fcurves ref = .error msg) := by
  refine ⟨?_, ?_, ?_, ?_, ?_, ?_, ?_, ?_⟩
  · intro hall
    obtain ⟨res, hres⟩ := Glue.combineFold_ok_of start source.fcurves target hall
    exact ⟨(res, (pyInt source.frameEnd : ℚ) + start),
      by rw [Glue.combine_animation, hres]⟩
  · intro res h sc hsc
    rw [Glue.combine_animation] at h
    cases hfold : List.foldlM (Glue.combineStep start) target source.fcurves with
    | error msg => rw [hfold] at h; exact absurd h (by simp)
    | ok t => exact Glue.combineFold_lookup_of_ok start source.fcurves target t hfold sc hsc
  · rintro ⟨sc, hsc, hnone⟩
    cases hres : Glue.combine_animation target source start with
    | error msg => exact ⟨msg, rfl⟩
    | ok res =>
        rw [Glue.combine_animation] at hres
        cases hfold : List.foldlM (Glue.combineStep start) target source.fcurves with
        | error msg => rw [hfold] at hres; exact absurd hres (by simp)
        | ok t =>
            have := Glue.combineFold_lookup_of_ok start source.fcurves target t hfold sc hsc
            rw [hnone] at this
            exact absurd this (by simp)
  · intro hall
    obtain ⟨res, hres⟩ := Glue.holdFold_ok_of s e source.fcurves target hall
    exact ⟨(res, e), by rw [Glue.perform_hold, hres]⟩
  · intro res h sc hsc
    rw [Glue.perform_hold] at h
    cases hfold : List.foldlM (Glue.holdStep s e) target source.fcurves with
    | error msg => rw [hfold] at h; exact absurd h (by simp)
    | ok t =>
        exact (Glue.holdFold_lookup_of_ok s e source.fcurves target t hfold sc hsc).1
  · rintro ⟨sc, hsc, hnone⟩
    cases hres : Glue.perform_hold target source s e with
    | error msg => exact ⟨msg, rfl⟩
    | ok res =>
        rw [Glue.perform_hold] at hres
        cases hfold : List.foldlM (Glue.holdStep s e) target source.fcurves with
        | error msg => rw [hfold] at hres; exact absurd hres (by simp)
        | ok t =>
            have := (Glue.holdFold_lookup_of_ok s e source.fcurves target t hfold sc hsc).1
            rw [hnone] at this
            exact absurd this (by simp)
  · intro t h
    rw [Glue.create_new_fcurves] at h
    by_cases hre : ref.fcurves = []
    · rw [if_pos hre] at h; exact absurd h (by simp)
    · rw [if_neg hre] at h
      simp only [Except.ok.injEq] at h
      rw [← h]
      constructor
      · rw [List.map_map]
        rfl
      · intro c hc
        simp only [List.mem_map] at hc
        obtain ⟨c0, _, hc0⟩ := hc
        rw [← hc0]
  · intro hre
    rw [Glue.create_new_fcurves, if_pos hre]
    exact ⟨_, rfl⟩

/-- C10 witness: a target prepared with the single channel key `(p, 0)` of a
reference gloss satisfies the lookup precondition for a source using that
key: the concrete combine succeeds and the channel lookup is found. -/
theorem claim_C10_witness :
    ((⟨[⟨"p", 0, []⟩]⟩ : AnimAction).lookupKps "p" 0).isSome = true ∧
    ((⟨[⟨"p", 0, []⟩]⟩ : AnimAction).fcurves.map FCurve.keyOf =
      (⟨[⟨"p", 0, [(1, 2)]⟩]⟩ : AnimAction).fcurves.map FCurve.keyOf) := by
  have h := claim_C10 ⟨[⟨"p", 0, []⟩]⟩ ⟨[⟨"p", 0, [(1, 2)]⟩]⟩
    ⟨[⟨"p", 0, [(1, 2)]⟩]⟩ 5 10 20
  have hcomb : Glue.combine_animation ⟨[⟨"p", 0, []⟩]⟩
      ⟨[⟨"p", 0, [(1, 2)]⟩]⟩ 5 = .ok (⟨[⟨"p", 0, [(5, 2)]⟩]⟩, 6) := by
    simp [Glue.combine_animation, Glue.combineStep, AnimAction.fcurvesFind,
      FCurve.matchKey, AnimAction.updateCurve, FCurve.insertKeyframe,
      AnimAction.frameEnd, pyInt, except_pure_def, Int.floor_one]
    norm_num
    rfl
  refine ⟨?_, ?_⟩
  · exact h.2.1 (⟨[⟨"p", 0, [(5, 2)]⟩]⟩, 6) hcomb ⟨"p", 0, [(1, 2)]⟩ (by simp)
  · exact (h.2.2.2.2.2.2.1 ⟨[⟨"p", 0, []⟩]⟩ rfl).1
